import Mathlib

/-!
# Verification of the Archit-Search dependency-analysis engine

Shallow embedding of the core of the `Archit-Search` extension:

* `DeepCycleDetector` (graph construction with mtime caching, bounded DFS
  deep-cycle detection),
* `GraphAnalyzer.checkCycle` (direct cycle check with self-import detection),
* `ImportParser.parse` / `_extractImports` (regex-table based import
  extraction with duplicate suppression),
* `RuleEngine.validate` (explicit disallow rules, then ordered layers),
* `AIKernel` (learning pass, statistics model, cosine similarity).

File-system access (`fs.existsSync`, `fs.statSync`, `fs.readFileSync`) and
the external regex / glob engines (JavaScript `RegExp`, `minimatch`) are
modelled as explicit oracle parameters; everything else is translated
directly from the JavaScript source.  JavaScript numbers are modelled
exactly (rationals for values produced by `+`/`*`/`/`, reals where
`Math.sqrt` appears).
-/

namespace ArchitSearch

/-- Per-character action of `toLowerCase().replace(/\\/g, '/')`:
lower-case the character, then turn a backslash into a forward slash
(a backslash is unaffected by lower-casing, so applying the two string
operations in sequence acts independently on each character). -/
def normChar (c : Char) : Char :=
  let lc := c.toLower
  if lc = '\\' then '/' else lc

/-- `file.toLowerCase().replace(/\\/g, '/')` — the path normalisation used by
`DeepCycleDetector._dfs` and `GraphAnalyzer._areSameFile`. -/
def normalize (s : String) : String := ⟨s.data.map normChar⟩

/-! ## DeepCycleDetector: bounded depth-first cycle search -/

/-- `CONFIG.MAX_DEPTH` in `DeepCycleDetector`. -/
def MAX_DEPTH : Nat := 10

/-- `CONFIG.MAX_FILES_PER_CHECK` in `DeepCycleDetector`. -/
def MAX_FILES_PER_CHECK : Nat := 50

/-- `CONFIG.MAX_FILE_SIZE` in `DeepCycleDetector`. -/
def MAX_FILE_SIZE : Nat := 500000

/-- The mutable state threaded through `DeepCycleDetector._dfs`:
the global `visited` set, the `recursionStack` set (both holding
normalised paths) and the `cyclePath` array (holding original paths,
pushed at the end, popped from the end). -/
structure DfsState where
  visited : List String
  stack : List String
  cyclePath : List String
deriving Repr, DecidableEq

/-- The `for (const dep of dependencies)` loop of `_dfs` with its early
`return true`: once a recursive call has reported a cycle the remaining
iterations never run (keeping the accumulator unchanged from that point on
is observationally identical to the early return). -/
def dfsLoop (step : String → DfsState → Bool × DfsState) :
    List String → Bool × DfsState → Bool × DfsState
  | [], acc => acc
  | dep :: rest, acc =>
    dfsLoop step rest (if acc.1 then acc else step dep acc.2)

/-- `DeepCycleDetector._dfs`.  The JavaScript recursion carries a `depth`
counter and returns `false` as soon as `depth > MAX_DEPTH`; we carry the
equivalent fuel `MAX_DEPTH + 1 - depth`, so `fuel = 0` is exactly the
depth-guard rejection (each recursive call passes `depth + 1`, i.e.
`fuel - 1`). -/
def dfs (g : String → List String) : Nat → String → DfsState → Bool × DfsState
  | 0, _, st => (false, st)
  | fuel + 1, file, st =>
    let nf := normalize file
    if nf ∈ st.stack then
      (true, { st with cyclePath := st.cyclePath ++ [file] })
    else if nf ∈ st.visited then
      (false, st)
    else
      let st1 : DfsState :=
        { visited := nf :: st.visited
          stack := nf :: st.stack
          cyclePath := st.cyclePath ++ [file] }
      let r := dfsLoop (dfs g fuel) (g file) (false, st1)
      if r.1 then r
      else
        (false, { r.2 with
                  stack := r.2.stack.erase nf
                  cyclePath := r.2.cyclePath.dropLast })

/-- Result of `detectDeepCycle` (the human-readable `message` field, a pure
function of `cycle`, is omitted). -/
structure CycleResult where
  hasCycle : Bool
  cycle : List String
  depth : Nat
deriving Repr, DecidableEq

/-- `DeepCycleDetector.detectDeepCycle`: runs the DFS from `startFile` with
fresh `visited` / `recursionStack` / `cyclePath` (initial depth `0`, i.e.
fuel `MAX_DEPTH + 1`) and reports a result only when a cycle was found and
the reconstructed path has more than two entries. -/
def detectDeepCycle (g : String → List String) (startFile : String) :
    Option CycleResult :=
  match dfs g (MAX_DEPTH + 1) startFile ⟨[], [], []⟩ with
  | (hasCycle, st) =>
    if hasCycle ∧ st.cyclePath.length > 2 then
      some ⟨true, st.cyclePath, st.cyclePath.length - 1⟩
    else
      none

/-- Unfolding `dfs` one level when the current file is already on the
recursion stack: the file is pushed onto `cyclePath` and the search
reports a cycle. -/
lemma dfs_step_hit (g : String → List String) (fuel : Nat) (file : String)
    (st : DfsState) (h : normalize file ∈ st.stack) :
    dfs g (fuel + 1) file st =
      (true, { st with cyclePath := st.cyclePath ++ [file] }) := by
  simp [dfs, h]

/-- The dependency loop over a one-element list is a single recursive call. -/
lemma dfsLoop_singleton (step : String → DfsState → Bool × DfsState)
    (d : String) (s : DfsState) :
    dfsLoop step [d] (false, s) = step d s := rfl

/-- Unfolding `dfs` one level when the current file is new and the loop over
its dependencies finds a cycle. -/
lemma dfs_step_found (g : String → List String) (fuel : Nat) (file : String)
    (st st' : DfsState) (h1 : normalize file ∉ st.stack)
    (h2 : normalize file ∉ st.visited)
    (h3 : dfsLoop (dfs g fuel) (g file)
      (false, ⟨normalize file :: st.visited, normalize file :: st.stack,
               st.cyclePath ++ [file]⟩) = (true, st')) :
    dfs g (fuel + 1) file st = (true, st') := by
  simp [dfs, h1, h2, h3]

/-- Once the accumulator records a found cycle, the dependency loop is inert
(matching the early `return true` in the source). -/
lemma dfsLoop_true_acc (step : String → DfsState → Bool × DfsState) :
    ∀ (deps : List String) (s : DfsState),
      dfsLoop step deps (true, s) = (true, s) := by
  intro deps
  induction deps with
  | nil => intro s; rfl
  | cons d rest ih => intro s; simp [dfsLoop, ih]

/-- A dependency loop that reports no cycle restores `recursionStack` and
`cyclePath` (only `visited` may have grown). -/
lemma dfsLoop_false_inv (step : String → DfsState → Bool × DfsState)
    (hstep : ∀ d s s', step d s = (false, s') →
      s'.stack = s.stack ∧ s'.cyclePath = s.cyclePath) :
    ∀ (deps : List String) (s s2 : DfsState),
      dfsLoop step deps (false, s) = (false, s2) →
      s2.stack = s.stack ∧ s2.cyclePath = s.cyclePath := by
  intro deps
  induction deps with
  | nil =>
    intro s s2 h
    simp only [dfsLoop] at h
    cases h
    exact ⟨rfl, rfl⟩
  | cons d rest ih =>
    intro s s2 h
    rw [show dfsLoop step (d :: rest) (false, s) = dfsLoop step rest (step d s)
      from rfl] at h
    rcases hsd : step d s with ⟨b', s'⟩
    rw [hsd] at h
    cases b' with
    | true =>
      rw [dfsLoop_true_acc] at h
      cases h
    | false =>
      obtain ⟨h1, h2⟩ := hstep d s s' hsd
      obtain ⟨h3, h4⟩ := ih s' s2 h
      exact ⟨h3.trans h1, h4.trans h2⟩

/-- A `_dfs` call that reports no cycle restores `recursionStack` and
`cyclePath` exactly (the push/pop discipline of the source). -/
lemma dfs_false_inv (g : String → List String) :
    ∀ (fuel : Nat) (f : String) (st st' : DfsState),
      dfs g fuel f st = (false, st') →
      st'.stack = st.stack ∧ st'.cyclePath = st.cyclePath := by
  intro fuel
  induction fuel with
  | zero =>
    intro f st st' h
    simp only [dfs] at h
    cases h
    exact ⟨rfl, rfl⟩
  | succ fuel ih =>
    intro f st st' h
    by_cases h1 : normalize f ∈ st.stack
    · simp [dfs, h1] at h
    · by_cases h2 : normalize f ∈ st.visited
      · simp [dfs, h1, h2] at h
        cases h
        exact ⟨rfl, rfl⟩
      · simp only [dfs, if_neg h1, if_neg h2] at h
        rcases hr : dfsLoop (dfs g fuel) (g f)
            (false, ⟨normalize f :: st.visited, normalize f :: st.stack,
                     st.cyclePath ++ [f]⟩) with ⟨b, s2⟩
        rw [hr] at h
        cases b with
        | true => simp at h
        | false =>
          simp only [if_neg (by simp : ¬((false, s2).1 = true))] at h
          obtain ⟨hs, hc⟩ := dfsLoop_false_inv (dfs g fuel) (ih) (g f) _ s2 hr
          cases h
          constructor
          · simp [hs, List.erase_cons_head]
          · simp [hc]

/-- If the dependency loop reports a cycle, some dependency's recursive call
reported it, starting from a state whose `recursionStack` and `cyclePath`
are those the loop started with. -/
lemma dfsLoop_true_ex (step : String → DfsState → Bool × DfsState)
    (hstep : ∀ d s s', step d s = (false, s') →
      s'.stack = s.stack ∧ s'.cyclePath = s.cyclePath) :
    ∀ (deps : List String) (s s2 : DfsState),
      dfsLoop step deps (false, s) = (true, s2) →
      ∃ d s1, s1.stack = s.stack ∧ s1.cyclePath = s.cyclePath ∧
        step d s1 = (true, s2) := by
  intro deps
  induction deps with
  | nil =>
    intro s s2 h
    simp only [dfsLoop] at h
    cases h
  | cons d rest ih =>
    intro s s2 h
    rw [show dfsLoop step (d :: rest) (false, s) = dfsLoop step rest (step d s)
      from rfl] at h
    rcases hsd : step d s with ⟨b', s'⟩
    rw [hsd] at h
    cases b' with
    | true =>
      rw [dfsLoop_true_acc] at h
      cases h
      exact ⟨d, s, rfl, rfl, hsd⟩
    | false =>
      obtain ⟨h1, h2⟩ := hstep d s s' hsd
      obtain ⟨d', s1, h3, h4, h5⟩ := ih s' s2 h
      exact ⟨d', s1, h3.trans h1, h4.trans h2, h5⟩

/-- When `_dfs` reports a cycle it has appended to `cyclePath` a non-empty
segment that starts at the current file and whose last element is a node
that was already on the recursion stack — either a node from the incoming
stack, or (normalised) a repetition of an earlier element of the appended
segment itself. -/
lemma dfs_true_inv (g : String → List String) :
    ∀ (fuel : Nat) (f : String) (st st' : DfsState),
      dfs g fuel f st = (true, st') →
      ∃ p x, st'.cyclePath = st.cyclePath ++ p ∧ p.head? = some f ∧
        p.getLast? = some x ∧
        (normalize x ∈ st.stack ∨ normalize x ∈ p.dropLast.map normalize) := by
  intro fuel
  induction fuel with
  | zero =>
    intro f st st' h
    simp only [dfs] at h
    cases h
  | succ fuel ih =>
    intro f st st' h
    by_cases h1 : normalize f ∈ st.stack
    · rw [dfs_step_hit g fuel f st h1] at h
      cases h
      exact ⟨[f], f, rfl, rfl, rfl, Or.inl h1⟩
    · by_cases h2 : normalize f ∈ st.visited
      · simp [dfs, h1, h2] at h
      · simp only [dfs, if_neg h1, if_neg h2] at h
        rcases hr : dfsLoop (dfs g fuel) (g f)
            (false, ⟨normalize f :: st.visited, normalize f :: st.stack,
                     st.cyclePath ++ [f]⟩) with ⟨b, s2⟩
        rw [hr] at h
        cases b with
        | false =>
          simp only [if_neg (by simp : ¬((false, s2).1 = true))] at h
          cases h
        | true =>
          simp only [if_pos (rfl : (true, s2).1 = true)] at h
          cases h
          obtain ⟨d, s1, hs, hc, hd⟩ :=
            dfsLoop_true_ex (dfs g fuel) (dfs_false_inv g fuel) (g f) _ _ hr
          obtain ⟨q, y, hq1, hq2, hq3, hq4⟩ := ih d s1 st' hd
          rcases q with _ | ⟨qh, qt⟩
          · cases hq3
          · refine ⟨f :: qh :: qt, y, ?_, rfl, ?_, ?_⟩
            · rw [hq1, hc]
              simp
            · rw [← hq3]
              rfl
            · rcases hq4 with hy | hy
              · rw [hs] at hy
                rcases List.mem_cons.mp hy with hy' | hy'
                · right
                  rw [List.dropLast_cons₂]
                  exact List.mem_cons.mpr (Or.inl hy')
                · exact Or.inl hy'
              · right
                rw [List.dropLast_cons₂]
                exact List.mem_cons.mpr (Or.inr hy)

/-- A three-file cycle `a → b → c → b` (the deeper cycle does not return to
the start file): used to refute the claim that the terminal element of a
reported cycle path is always the start file. -/
def gACB : String → List String := fun s =>
  if s = "a" then ["b"]
  else if s = "b" then ["c"]
  else if s = "c" then ["b"]
  else []

/-- The canonical three-file cycle `a → b → c → a`. -/
def g3 : String → List String := fun s =>
  if s = "a" then ["b"]
  else if s = "b" then ["c"]
  else if s = "c" then ["a"]
  else []

/-- A file whose dependency list contains only itself (a self-loop). -/
def gSelf : String → List String := fun s => if s = "a" then ["a"] else []

/-- C1: for files `A`, `B`, `C` (pairwise distinct under the detector's own
path normalisation) whose dependency-graph entries form the cycle
`A→B`, `B→C`, `C→A`, `detectDeepCycle A` returns a result with
`hasCycle = true`, `depth = 3` and cycle path `[A, B, C, A]`. -/
theorem C1_detectDeepCycle_three_cycle (g : String → List String)
    (A B C : String)
    (hA : g A = [B]) (hB : g B = [C]) (hC : g C = [A])
    (hab : normalize A ≠ normalize B) (hac : normalize A ≠ normalize C)
    (hbc : normalize B ≠ normalize C) :
    detectDeepCycle g A = some ⟨true, [A, B, C, A], 3⟩ := by
  set nA := normalize A with hnA
  set nB := normalize B with hnB
  set nC := normalize C with hnC
  have l8 : dfs g 8 A ⟨[nC, nB, nA], [nC, nB, nA], [A, B, C]⟩ =
      (true, ⟨[nC, nB, nA], [nC, nB, nA], [A, B, C, A]⟩) := by
    rw [show (8 : ℕ) = 7 + 1 from rfl]
    exact dfs_step_hit g 7 A _ (by simp)
  have l9 : dfs g 9 C ⟨[nB, nA], [nB, nA], [A, B]⟩ =
      (true, ⟨[nC, nB, nA], [nC, nB, nA], [A, B, C, A]⟩) := by
    rw [show (9 : ℕ) = 8 + 1 from rfl]
    refine dfs_step_found g 8 C _ _ (by simp [hac, hbc, Ne.symm])
      (by simp [hac, hbc, Ne.symm]) ?_
    rw [hC, dfsLoop_singleton]
    exact l8
  have l10 : dfs g 10 B ⟨[nA], [nA], [A]⟩ =
      (true, ⟨[nC, nB, nA], [nC, nB, nA], [A, B, C, A]⟩) := by
    rw [show (10 : ℕ) = 9 + 1 from rfl]
    refine dfs_step_found g 9 B _ _ (by simp [hab, Ne.symm])
      (by simp [hab, Ne.symm]) ?_
    rw [hB, dfsLoop_singleton]
    exact l9
  have l11 : dfs g (MAX_DEPTH + 1) A ⟨[], [], []⟩ =
      (true, ⟨[nC, nB, nA], [nC, nB, nA], [A, B, C, A]⟩) := by
    refine dfs_step_found g MAX_DEPTH A _ _ (by simp) (by simp) ?_
    rw [hA, dfsLoop_singleton]
    exact l10
  simp [detectDeepCycle, l11]

/-- Witness for C1 on the concrete three-file cycle `a → b → c → a`. -/
theorem C1_witness :
    detectDeepCycle g3 "a" = some ⟨true, ["a", "b", "c", "a"], 3⟩ :=
  C1_detectDeepCycle_three_cycle g3 "a" "b" "c" rfl rfl rfl
    (by decide) (by decide) (by decide)

/-- C2 counterexample: on the graph `a → b`, `b → c`, `c → b` the detector
returns the cycle path `[a, b, c, b]`, whose terminal element `b` is not the
start file `a` (also not under the detector's own normalisation), refuting
the claim that every returned cycle sequence ends at the start file. -/
theorem C2_counterexample :
    detectDeepCycle gACB "a" = some ⟨true, ["a", "b", "c", "b"], 3⟩ ∧
    (["a", "b", "c", "b"] : List String).getLast? = some "b" ∧
    "b" ≠ "a" ∧ normalize "b" ≠ normalize "a" := by
  refine ⟨by decide, by decide, by decide, by decide⟩

/-- C2 (amended): every non-null result of `detectDeepCycle` starts at the
start file and its terminal element denotes (under the detector's path
normalisation) the same file as some *earlier* element of the sequence —
the repeated node — though not necessarily the start file. -/
theorem C2_cycle_closed_walk_amended (g : String → List String) (s : String)
    (r : CycleResult) (h : detectDeepCycle g s = some r) :
    r.hasCycle = true ∧ r.cycle.head? = some s ∧
      ∃ x, r.cycle.getLast? = some x ∧
        normalize x ∈ r.cycle.dropLast.map normalize := by
  unfold detectDeepCycle at h
  rcases hres : dfs g (MAX_DEPTH + 1) s ⟨[], [], []⟩ with ⟨b, st⟩
  rw [hres] at h
  have h' : (if b = true ∧ st.cyclePath.length > 2 then
      some (⟨true, st.cyclePath, st.cyclePath.length - 1⟩ : CycleResult)
    else none) = some r := h
  split at h'
  · next hcond =>
    injection h' with h2
    subst h2
    have hb : b = true := hcond.1
    subst hb
    obtain ⟨p, x, hp1, hp2, hp3, hp4⟩ := dfs_true_inv g _ s _ _ hres
    simp only [List.nil_append] at hp1
    subst hp1
    refine ⟨rfl, hp2, x, hp3, ?_⟩
    rcases hp4 with h4 | h4
    · simp at h4
    · exact h4
  · cases h'

/-- Witness for the amended C2 on the concrete cycle `a → b → c → a`. -/
theorem C2_witness :
    ∃ x, (["a", "b", "c", "a"] : List String).getLast? = some x ∧
      normalize x ∈ (["a", "b", "c", "a"] : List String).dropLast.map normalize :=
  (C2_cycle_closed_walk_amended g3 "a" ⟨true, ["a", "b", "c", "a"], 3⟩
    (by decide)).2.2

/-- C10: `detectDeepCycle` returns a non-null result only when the
reconstructed cycle path has more than two entries, and on a file whose
dependency list is the self-loop `[s]` it returns `none` even though the
graph has a cycle through that file. -/
theorem C10_self_loop_returns_null (g : String → List String) (s : String) :
    (∀ r, detectDeepCycle g s = some r → 2 < r.cycle.length) ∧
    (g s = [s] → detectDeepCycle g s = none) := by
  constructor
  · intro r h
    unfold detectDeepCycle at h
    rcases hres : dfs g (MAX_DEPTH + 1) s ⟨[], [], []⟩ with ⟨b, st⟩
    rw [hres] at h
    have h' : (if b = true ∧ st.cyclePath.length > 2 then
        some (⟨true, st.cyclePath, st.cyclePath.length - 1⟩ : CycleResult)
      else none) = some r := h
    split at h'
    · next hcond =>
      injection h' with h2
      subst h2
      exact hcond.2
    · cases h'
  · intro hself
    have hd : dfs g (MAX_DEPTH + 1) s ⟨[], [], []⟩ =
        (true, ⟨[normalize s], [normalize s], [s, s]⟩) := by
      refine dfs_step_found g MAX_DEPTH s _ _ (by simp) (by simp) ?_
      rw [hself, dfsLoop_singleton]
      rw [show MAX_DEPTH = 9 + 1 from rfl]
      exact dfs_step_hit g 9 s _ (by simp)
    simp [detectDeepCycle, hd]

/-- Witness for C10 on the concrete self-loop graph. -/
theorem C10_witness : detectDeepCycle gSelf "a" = none :=
  (C10_self_loop_returns_null gSelf "a").2 rfl

/-! ## GraphAnalyzer: direct cycle check -/

/-- `normalizedB.replace(/\.[^/.]+$/, '')` in `GraphAnalyzer._areSameFile`:
strips a final extension — a dot followed by one or more characters none of
which is a dot or a slash, anchored at the end of the string.  If no such
suffix exists the string is unchanged. -/
def stripExt (s : String) : String :=
  let r := s.data.reverse
  let ext := r.takeWhile (fun c => !(c = '.' || c = '/'))
  match r.drop ext.length with
  | '.' :: _ => if ext.isEmpty then s else ⟨(r.drop (ext.length + 1)).reverse⟩
  | _ => s

/-- JavaScript `String.prototype.startsWith`: `pre` is a prefix of `s`. -/
def strStartsWith (s pre : String) : Bool := pre.data.isPrefixOf s.data

/-- `GraphAnalyzer._areSameFile`: exact normalized match, or `pathA` equals /
starts with `pathB` with its extension stripped. -/
def areSameFile (pathA pathB : String) : Bool :=
  let normalizedA := normalize pathA
  let normalizedB := normalize pathB
  if normalizedA = normalizedB then
    true
  else
    let normalizedBNoExt := stripExt normalizedB
    if normalizedA = normalizedBNoExt ||
        strStartsWith normalizedA normalizedBNoExt then
      true
    else
      false

/-- Result of `GraphAnalyzer.checkCycle` (the human-readable `message`
field, a pure function of the two paths, is omitted). -/
structure CycleHit where
  isCycle : Bool
deriving Repr, DecidableEq

/-- `GraphAnalyzer.checkCycle`.  `fsExists` models `fs.existsSync`;
`getImports` models `_getFileImports` (cached parse of the target file —
the LRU cache only affects cost, not the parsed import list, so it is
absorbed into the oracle); `resolveFromDir` models
`path.resolve(path.dirname(targetFile), imp.path)`.  The JavaScript loop
returns at the first import of the target that resolves back to the
source. -/
def checkCycle (fsExists : String → Bool) (getImports : String → List String)
    (resolveFromDir : String → String → String)
    (sourceFile targetFile : String) : Option CycleHit :=
  if fsExists targetFile = false then
    none
  else if areSameFile sourceFile targetFile then
    some ⟨true⟩
  else
    match (getImports targetFile).find?
        (fun p => strStartsWith p "." &&
          areSameFile (resolveFromDir targetFile p) sourceFile) with
    | some _ => some ⟨true⟩
    | none => none

/-- C3 counterexample: when the target file does not exist on the file
system, `checkCycle(A, A)` returns `null` rather than reporting a cycle, so
the claim does not hold for *every* path `A`. -/
theorem C3_counterexample :
    checkCycle (fun _ => false) (fun _ => []) (fun _ p => p)
      "a.js" "a.js" = none := rfl

/-- C3 (amended): for every path `A` that exists on the file system,
`checkCycle(A, A)` reports a cycle, regardless of the dependency graph and
the import cache (the imports oracle is universally quantified and never
consulted). -/
theorem C3_self_import_cycle_amended (fsExists : String → Bool)
    (getImports : String → List String)
    (resolveFromDir : String → String → String) (A : String)
    (h : fsExists A = true) :
    checkCycle fsExists getImports resolveFromDir A A = some ⟨true⟩ := by
  have hsame : areSameFile A A = true := by
    simp [areSameFile]
  simp [checkCycle, h, hsame]

/-- Witness for the amended C3 at a concrete existing file. -/
theorem C3_witness :
    checkCycle (fun _ => true) (fun _ => []) (fun _ p => p)
      "a.js" "a.js" = some ⟨true⟩ :=
  C3_self_import_cycle_amended (fun _ => true) (fun _ => []) (fun _ p => p)
    "a.js" rfl

/-! ## RuleEngine: explicit rules and layer architecture

`minimatch(path, pattern, { matchBase: true })` (rule matching) and
`minimatch(path, pattern)` (layer matching) are an external glob library
and are modelled as the two oracle parameters `mb` and `m`. -/

/-- An architecture rule: source glob, optional list of disallowed target
globs (`rule.disallow` may be absent in the configuration), optional
message. -/
structure Rule where
  source : String
  disallow : Option (List String)
  message : Option String

/-- A layer definition: name and glob pattern; the ordinal is the position
in the configured list. -/
structure Layer where
  name : String
  pattern : String

instance : Inhabited Layer := ⟨⟨"", ""⟩⟩

/-- A violation returned by `RuleEngine`. -/
structure Violation where
  isViolation : Bool
  message : String
deriving Repr, DecidableEq

/-- `RuleEngine._normalizePath`: `filePath.replace(/\\/g, '/')`. -/
def normalizePath (filePath : String) : String :=
  ⟨filePath.data.map (fun c => if c = '\\' then '/' else c)⟩

/-- `RuleEngine._checkRuleViolations`: the first rule whose source glob
matches the source and one of whose disallow globs matches the target
fires; a rule whose source matches but whose disallow list does not fire
lets evaluation continue with the next rule. -/
def checkRuleViolations (mb : String → String → Bool)
    (source target : String) : List Rule → Option Violation
  | [] => none
  | rule :: rest =>
    if mb source rule.source then
      match rule.disallow with
      | none => checkRuleViolations mb source target rest
      | some pats =>
        match pats.find? (fun p => mb target p) with
        | some p =>
          some ⟨true, rule.message.getD
            ("Violation: '" ++ source ++ "' cannot import from '" ++ p ++ "'")⟩
        | none => checkRuleViolations mb source target rest
    else
      checkRuleViolations mb source target rest

/-- The indexed `for` loop of `RuleEngine._findLayerIndex`, carrying the
current index. -/
def findLayerIndexAux (m : String → String → Bool) (filePath : String) :
    List Layer → Nat → Option Nat
  | [], _ => none
  | l :: rest, i =>
    if m filePath l.pattern then some i
    else findLayerIndexAux m filePath rest (i + 1)

/-- `RuleEngine._findLayerIndex`: index of the first layer (in list order)
whose pattern matches the path; the JavaScript `-1` sentinel is modelled as
`none`. -/
def findLayerIndex (m : String → String → Bool) (filePath : String)
    (layers : List Layer) : Option Nat :=
  findLayerIndexAux m filePath layers 0

/-- `RuleEngine._checkLayerViolations`: both paths must resolve to a
defined layer, and a violation fires exactly when the source's layer index
is strictly smaller than the target's. -/
def checkLayerViolations (m : String → String → Bool)
    (source target : String) (layers : List Layer) : Option Violation :=
  if layers.isEmpty then
    none
  else
    match findLayerIndex m source layers, findLayerIndex m target layers with
    | some si, some ti =>
      if si < ti then
        some ⟨true, "Layer Violation: '" ++ (layers.getD si default).name ++
          "' layer cannot depend on outer '" ++ (layers.getD ti default).name ++
          "' layer."⟩
      else
        none
    | _, _ => none

/-- `RuleEngine.validate`: normalise both paths, check explicit rules
first, then layers. -/
def validate (mb m : String → String → Bool)
    (sourceRelativePath targetRelativePath : String)
    (rules : List Rule) (layers : List Layer) : Option Violation :=
  let ns := normalizePath sourceRelativePath
  let nt := normalizePath targetRelativePath
  match checkRuleViolations mb ns nt rules with
  | some v => some v
  | none => checkLayerViolations m ns nt layers

/-- Characterisation of the layer-index loop with an arbitrary starting
index. -/
lemma findLayerIndexAux_eq_some (m : String → String → Bool) (p : String) :
    ∀ (layers : List Layer) (base i : Nat),
      findLayerIndexAux m p layers base = some i ↔
      ∃ j, i = base + j ∧ ∃ h : j < layers.length,
        m p (layers.get ⟨j, h⟩).pattern = true ∧
        ∀ k (hk : k < j), m p (layers.get ⟨k, hk.trans h⟩).pattern = false := by
  intro layers
  induction layers with
  | nil =>
    intro base i
    simp [findLayerIndexAux]
  | cons l rest ih =>
    intro base i
    by_cases hm : m p l.pattern
    · simp only [findLayerIndexAux, if_pos hm]
      constructor
      · intro h
        injection h with h
        exact ⟨0, by omega, by simp, by simpa using hm, by omega⟩
      · rintro ⟨j, hij, hj, hmj, hprev⟩
        rcases j with _ | j
        · simp [hij]
        · exact absurd hm (by simpa using hprev 0 (Nat.succ_pos j))
    · simp only [findLayerIndexAux, if_neg hm]
      rw [ih (base + 1) i]
      constructor
      · rintro ⟨j, hij, hj, hmj, hprev⟩
        refine ⟨j + 1, by omega, by simpa using hj, by simpa using hmj, ?_⟩
        intro k hk
        rcases k with _ | k
        · simpa using hm
        · simpa using hprev k (by omega)
      · rintro ⟨j, hij, hj, hmj, hprev⟩
        rcases j with _ | j
        · exact absurd (by simpa using hmj) hm
        · refine ⟨j, by omega, by simpa using hj, by simpa using hmj, ?_⟩
          intro k hk
          simpa using hprev (k + 1) (by omega)

/-- A path is assigned layer `i` exactly when layer `i`'s pattern matches
it and no earlier layer's pattern does (first match in list order). -/
lemma findLayerIndex_eq_some (m : String → String → Bool) (p : String)
    (layers : List Layer) (i : Nat) :
    findLayerIndex m p layers = some i ↔
      ∃ h : i < layers.length,
        m p (layers.get ⟨i, h⟩).pattern = true ∧
        ∀ k (hk : k < i), m p (layers.get ⟨k, hk.trans h⟩).pattern = false := by
  rw [findLayerIndex, findLayerIndexAux_eq_some]
  constructor
  · rintro ⟨j, hij, hj, hmj, hprev⟩
    have : i = j := by omega
    subst this
    exact ⟨hj, hmj, hprev⟩
  · rintro ⟨h, hm, hprev⟩
    exact ⟨i, by omega, h, hm, hprev⟩

/-- A layer violation is produced exactly when both paths resolve to a
layer and the source's index is strictly below the target's. -/
lemma checkLayerViolations_isSome (m : String → String → Bool)
    (source target : String) (layers : List Layer) :
    (checkLayerViolations m source target layers).isSome ↔
      ∃ si ti, findLayerIndex m source layers = some si ∧
        findLayerIndex m target layers = some ti ∧ si < ti := by
  unfold checkLayerViolations
  by_cases hemp : layers.isEmpty
  · simp only [if_pos hemp]
    have : layers = [] := List.isEmpty_iff.mp hemp
    subst this
    simp [findLayerIndex, findLayerIndexAux]
  · simp only [if_neg hemp]
    rcases hs : findLayerIndex m source layers with _ | si
    · simp [hs]
    · rcases ht : findLayerIndex m target layers with _ | ti
      · simp [hs, ht]
      · by_cases hlt : si < ti
        · simp [hs, ht, hlt]
        · simp [hs, ht, hlt]

/-- C4: `validate` (whose `Option` result carries at most one violation per
call) evaluates explicit rules before layers — a firing rule's violation is
the returned one, short-circuiting layer checking; when no rule fires, a
(layer) violation is returned exactly when both normalised paths are
assigned some layer and the source layer's ordinal is strictly less than
the target layer's; a path's layer is the first one in list order whose
pattern matches, and paths matching no layer are exempt. -/
theorem C4_validate_rules_then_layers (mb m : String → String → Bool)
    (source target : String) (rules : List Rule) (layers : List Layer) :
    (∀ v, checkRuleViolations mb (normalizePath source) (normalizePath target)
        rules = some v →
      validate mb m source target rules layers = some v) ∧
    (checkRuleViolations mb (normalizePath source) (normalizePath target)
        rules = none →
      ((validate mb m source target rules layers).isSome ↔
        ∃ si ti,
          findLayerIndex m (normalizePath source) layers = some si ∧
          findLayerIndex m (normalizePath target) layers = some ti ∧
          si < ti)) ∧
    (∀ p i, findLayerIndex m p layers = some i ↔
      ∃ h : i < layers.length,
        m p (layers.get ⟨i, h⟩).pattern = true ∧
        ∀ k (hk : k < i), m p (layers.get ⟨k, hk.trans h⟩).pattern = false) := by
  have hval : validate mb m source target rules layers =
      match checkRuleViolations mb (normalizePath source)
          (normalizePath target) rules with
      | some v => some v
      | none => checkLayerViolations m (normalizePath source)
          (normalizePath target) layers := rfl
  refine ⟨?_, ?_, ?_⟩
  · intro v hv
    rw [hval, hv]
  · intro hnone
    rw [hval, hnone]
    exact checkLayerViolations_isSome m _ _ layers
  · intro p i
    exact findLayerIndex_eq_some m p layers i

/-- Two concrete layers for the C4 witness: `Domain` (ordinal 0, inner)
and `Presentation` (ordinal 1, outer). -/
def layersW : List Layer := [⟨"Domain", "inner"⟩, ⟨"Presentation", "outer"⟩]

/-- Witness for C4: with no rules and a concrete prefix matcher, a
`Domain` file importing a `Presentation` file yields a violation
(the backslash in the source path exercises the normalisation). -/
theorem C4_witness :
    (validate (fun _ _ => false) (fun p pat => strStartsWith p pat)
      "inner\\a.js" "outer/b.js" [] layersW).isSome := by
  have h := (C4_validate_rules_then_layers (fun _ _ => false)
    (fun p pat => strStartsWith p pat)
    "inner\\a.js" "outer/b.js" [] layersW).2.1 rfl
  exact h.mpr ⟨0, 1, by decide, by decide, by decide⟩

/-! ## ImportParser: regex-table import extraction

A JavaScript `RegExp` with the `g` flag is modelled as an oracle
`String → List ImportRecord`: the sequence of records its repeated `exec`
produces on a text, each carrying the extracted path
(`match[1] || match[2] || match[3]`, the empty string when no group
captured — a falsy `importPath` in the source), the match offset and the
match length.  The `fullMatch` field of the source (the matched substring,
recoverable from `index` and `length`) is omitted. -/

/-- One import record `{path, index, length}` produced by the parser. -/
structure ImportRecord where
  path : String
  index : Nat
  length : Nat
deriving Repr, DecidableEq

/-- The inner `while ((match = regex.exec(text)) !== null)` loop of
`ImportParser._extractImports`: each match is appended unless its path is
falsy (empty) or its `(offset, path)` key was already seen. -/
def extractLoop : List ImportRecord → List (Nat × String) → List ImportRecord →
    List (Nat × String) × List ImportRecord
  | [], seen, acc => (seen, acc)
  | m :: rest, seen, acc =>
    if m.path ≠ "" ∧ (m.index, m.path) ∉ seen then
      extractLoop rest ((m.index, m.path) :: seen) (acc ++ [m])
    else
      extractLoop rest seen acc

/-- The outer `for (const regex of regexes)` loop of
`ImportParser._extractImports`; the `seen` set is shared across the
patterns. -/
def extractRegexes (text : String) :
    List (String → List ImportRecord) → List (Nat × String) →
    List ImportRecord → List ImportRecord
  | [], _, acc => acc
  | r :: rs, seen, acc =>
    match extractLoop (r text) seen acc with
    | (seen', acc') => extractRegexes text rs seen' acc'

/-- `ImportParser._extractImports`. -/
def extractImports (text : String)
    (regexes : List (String → List ImportRecord)) : List ImportRecord :=
  extractRegexes text regexes [] []

/-- `ImportParser.parse`: looks up the language's pattern list
(`this.regexMap[languageId] || []`, modelled by a total `regexMap` with
default `[]`) and extracts; an unsupported language yields `[]`. -/
def parse (regexMap : String → List (String → List ImportRecord))
    (text languageId : String) : List ImportRecord :=
  let regexes := regexMap languageId
  if regexes.length = 0 then [] else extractImports text regexes

/-- Specification-side recursion: keep each record whose path is non-empty
and whose `(offset, path)` key has not occurred before. -/
def dedupAux : List ImportRecord → List (Nat × String) →
    List (Nat × String) × List ImportRecord
  | [], seen => (seen, [])
  | m :: rest, seen =>
    if m.path ≠ "" ∧ (m.index, m.path) ∉ seen then
      match dedupAux rest ((m.index, m.path) :: seen) with
      | (seen', out) => (seen', m :: out)
    else
      dedupAux rest seen

/-- First-occurrence filter on `(offset, extracted-path)` keys. -/
def dedupByOffsetPath (ms : List ImportRecord) : List ImportRecord :=
  (dedupAux ms []).2

/-- The accumulator form of the extraction loop computes the
first-occurrence filter. -/
lemma extractLoop_eq_dedupAux :
    ∀ (ms : List ImportRecord) (seen : List (Nat × String))
      (acc : List ImportRecord),
      extractLoop ms seen acc =
        ((dedupAux ms seen).1, acc ++ (dedupAux ms seen).2) := by
  intro ms
  induction ms with
  | nil => intro seen acc; simp [extractLoop, dedupAux]
  | cons m rest ih =>
    intro seen acc
    by_cases hc : m.path ≠ "" ∧ (m.index, m.path) ∉ seen
    · simp only [extractLoop, dedupAux, if_pos hc]
      rw [ih]
      rcases dedupAux rest ((m.index, m.path) :: seen) with ⟨s', out⟩
      simp
    · simp only [extractLoop, dedupAux, if_neg hc]
      exact ih seen acc

/-- The first-occurrence filter over a concatenation threads its seen-set
left to right. -/
lemma dedupAux_append (xs ys : List ImportRecord) (seen : List (Nat × String)) :
    dedupAux (xs ++ ys) seen =
      ((dedupAux ys (dedupAux xs seen).1).1,
        (dedupAux xs seen).2 ++ (dedupAux ys (dedupAux xs seen).1).2) := by
  induction xs generalizing seen with
  | nil => simp [dedupAux]
  | cons x rest ih =>
    by_cases hc : x.path ≠ "" ∧ (x.index, x.path) ∉ seen
    · simp only [List.cons_append, dedupAux, if_pos hc, List.append_eq]
      rw [ih]
    · simp only [List.cons_append, dedupAux, if_neg hc, List.append_eq]
      exact ih seen

/-- The pattern loop equals the first-occurrence filter of the per-pattern
match lists concatenated in pattern order. -/
lemma extractRegexes_eq (text : String) :
    ∀ (rs : List (String → List ImportRecord)) (seen : List (Nat × String))
      (acc : List ImportRecord),
      extractRegexes text rs seen acc =
        acc ++ (dedupAux ((rs.map (fun r => r text)).flatten) seen).2 := by
  intro rs
  induction rs with
  | nil => intro seen acc; simp [extractRegexes, dedupAux]
  | cons r rest ih =>
    intro seen acc
    simp only [extractRegexes, extractLoop_eq_dedupAux]
    rw [ih]
    simp only [List.map_cons, List.flatten_cons]
    rw [dedupAux_append]
    simp [List.append_assoc]

/-- The filtered output has pairwise-distinct `(offset, path)` keys, none
of which was in the incoming seen-set. -/
lemma dedupAux_nodup :
    ∀ (ms : List ImportRecord) (seen : List (Nat × String)),
      (((dedupAux ms seen).2.map (fun m => (m.index, m.path))).Nodup ∧
        ∀ k ∈ (dedupAux ms seen).2.map (fun m => (m.index, m.path)),
          k ∉ seen) := by
  intro ms
  induction ms with
  | nil => intro seen; simp [dedupAux]
  | cons m rest ih =>
    intro seen
    by_cases hc : m.path ≠ "" ∧ (m.index, m.path) ∉ seen
    · simp only [dedupAux, if_pos hc]
      obtain ⟨ih1, ih2⟩ := ih ((m.index, m.path) :: seen)
      rcases hd : dedupAux rest ((m.index, m.path) :: seen) with ⟨s', out⟩
      rw [hd] at ih1 ih2
      simp only [List.map_cons, List.nodup_cons]
      refine ⟨⟨?_, ih1⟩, ?_⟩
      · intro hmem
        exact (ih2 _ hmem) (List.mem_cons_self _ _)
      · intro k hk
        rcases List.mem_cons.mp hk with hk | hk
        · subst hk; exact hc.2
        · intro hkseen
          exact (ih2 k hk) (List.mem_cons_of_mem _ hkseen)
    · simp only [dedupAux, if_neg hc]
      obtain ⟨ih1, ih2⟩ := ih seen
      exact ⟨ih1, ih2⟩

/-- C6 (amended): `parse` returns the per-pattern match lists concatenated
in pattern-rule order (each pattern's matches in document order), filtered
to the first occurrence of every `(offset, extracted-path)` pair — so at
most one record per pair — and an unsupported language tag yields the empty
list; but the records are grouped by pattern rule, not globally sorted by
document position. -/
theorem C6_parse_grouped_dedup_amended
    (rm : String → List (String → List ImportRecord))
    (text languageId : String) :
    parse rm text languageId =
      dedupByOffsetPath (((rm languageId).map (fun r => r text)).flatten) ∧
    ((parse rm text languageId).map (fun m => (m.index, m.path))).Nodup ∧
    (rm languageId = [] → parse rm text languageId = []) := by
  have hmain : parse rm text languageId =
      dedupByOffsetPath (((rm languageId).map (fun r => r text)).flatten) := by
    unfold parse dedupByOffsetPath
    by_cases hz : (rm languageId).length = 0
    · rw [if_pos hz]
      rw [List.length_eq_zero.mp hz]
      simp [dedupAux]
    · rw [if_neg hz]
      unfold extractImports
      rw [extractRegexes_eq]
      simp
  refine ⟨hmain, ?_, ?_⟩
  · rw [hmain]
    exact (dedupAux_nodup _ []).1
  · intro hnil
    unfold parse
    rw [hnil]
    simp

/-- The text for the C6 counterexample: a `require()` call (offset 0,
length 12) followed by an `import … from` statement (offset 13,
length 17). -/
def textC : String := "require(\"a\")\nimport x from \"b\""

/-- The `import\s+.*?from\s+['"](.*?)['"]` pattern's matches on `textC`:
one match at offset 13 extracting `b`. -/
def rgxImportFrom : String → List ImportRecord := fun _ => [⟨"b", 13, 17⟩]

/-- The `require\(['"](.*?)['"]\)` pattern's matches on `textC`: one match
at offset 0 extracting `a`.  In the JavaScript pattern table this pattern
comes after the `import … from` patterns. -/
def rgxRequire : String → List ImportRecord := fun _ => [⟨"a", 0, 12⟩]

/-- Pattern table for the counterexample, mirroring the JavaScript
`javascript` entry's rule order (`import … from` before `require`). -/
def rmC : String → List (String → List ImportRecord) := fun lang =>
  if lang = "javascript" then [rgxImportFrom, rgxRequire] else []

/-- C6 counterexample: on a text whose `require()` call precedes its
`import … from` statement, `parse` emits the `import` record (offset 13)
before the `require` record (offset 0), so the output is not sorted by
index, refuting the document-order part of the claim. -/
theorem C6_counterexample :
    (parse rmC textC "javascript").map (fun m => m.index) = [13, 0] ∧
    ¬ List.Sorted (· ≤ ·)
      ((parse rmC textC "javascript").map (fun m => m.index)) := by
  constructor
  · decide
  · decide

/-- Witness for the amended C6: an unsupported language tag yields `[]`. -/
theorem C6_witness : parse (fun _ => []) "import x" "cobol" = [] :=
  (C6_parse_grouped_dedup_amended (fun _ => []) "import x" "cobol").2.2 rfl

/-! ## AIKernel: term-frequency vectors, cosine similarity, statistics

JavaScript numbers are modelled exactly: rationals for the values produced
by `+`, `*`, `/`, reals where `Math.sqrt` appears. -/

/-- A term-frequency vector: the entry list of the JavaScript
`Map<string, number>` in insertion order (a `Map` never holds duplicate
keys). -/
abbrev TFVec := List (String × ℚ)

/-- `vec.get(key) || 0`. -/
def lookupVal (v : TFVec) (k : String) : ℚ := (v.lookup k).getD 0

/-- The first loop of `AIKernel._cosineSimilarity`: dot product over the
entries of `A`, looking each key up in `B`. -/
def dotProduct (A B : TFVec) : ℚ :=
  (A.map (fun e => e.2 * lookupVal B e.1)).sum

/-- Sum of squared values of a vector (`magA` / `magB` before the square
root in `_cosineSimilarity`). -/
def magSq (v : TFVec) : ℚ := (v.map (fun e => e.2 * e.2)).sum

/-- `AIKernel._cosineSimilarity` under **exact real arithmetic**: zero when
either squared magnitude is zero (the guard precedes the division),
otherwise `dot / (sqrt(magA) * sqrt(magB))`.  This is an idealisation: the
program computes in IEEE-754 binary64, which `fpCosine` below models
faithfully; in binary64 the quotient for identical vectors is *not* always
exactly 1 (see `C9_counterexample`). -/
noncomputable def cosineSimilarity (A B : TFVec) : ℝ :=
  if magSq A = 0 ∨ magSq B = 0 then 0
  else (dotProduct A B : ℝ) / (Real.sqrt (magSq A) * Real.sqrt (magSq B))

/-- Looking a key up past a non-matching head entry. -/
lemma lookup_cons_ne (k' k : String) (a : ℚ) (B : TFVec) (h : k' ≠ k) :
    List.lookup k' ((k, a) :: B) = List.lookup k' B := by
  simp [List.lookup, beq_false_of_ne h]

/-- On a duplicate-free vector the dot product with itself is the squared
magnitude. -/
lemma dot_self_eq_magSq : ∀ (v : TFVec), (v.map Prod.fst).Nodup →
    dotProduct v v = magSq v := by
  intro v
  induction v with
  | nil => intro _; rfl
  | cons e rest ih =>
    intro hnd
    rcases e with ⟨k, a⟩
    simp only [List.map_cons, List.nodup_cons] at hnd
    obtain ⟨hk, hrest⟩ := hnd
    have hfirst : lookupVal ((k, a) :: rest) k = a := by
      simp [lookupVal, List.lookup]
    have hrest_eq : rest.map (fun e => e.2 * lookupVal ((k, a) :: rest) e.1) =
        rest.map (fun e => e.2 * lookupVal rest e.1) := by
      apply List.map_congr_left
      intro e he
      have hne : e.1 ≠ k := by
        intro hcontra
        exact hk (hcontra ▸ List.mem_map_of_mem Prod.fst he)
      rw [lookupVal, lookup_cons_ne _ _ _ _ hne, lookupVal]
    simp only [dotProduct, magSq, List.map_cons, List.sum_cons] at *
    rw [hfirst, hrest_eq, ih hrest]

/-- A sum of squares is non-negative. -/
lemma magSq_nonneg (v : TFVec) : 0 ≤ magSq v := by
  apply List.sum_nonneg
  intro x hx
  obtain ⟨e, _, he⟩ := List.mem_map.mp hx
  rw [← he]
  exact mul_self_nonneg _

/-- A key absent from a vector's key list has no lookup result. -/
lemma lookup_eq_none_of_not_mem (k : String) :
    ∀ (B : TFVec), k ∉ B.map Prod.fst → List.lookup k B = none := by
  intro B
  induction B with
  | nil => intro _; rfl
  | cons e rest ih =>
    intro h
    simp only [List.map_cons, List.mem_cons, not_or] at h
    rcases e with ⟨k', a⟩
    rw [lookup_cons_ne _ _ _ _ h.1]
    exact ih h.2

/-! ### IEEE-754 binary64 model of `_cosineSimilarity`

The program's numbers are IEEE-754 doubles; JavaScript's `+`, `*`, `/` and
`Math.sqrt` are the correctly-rounded (round-to-nearest, ties-to-even)
binary64 operations.  `roundDouble` is that rounding for positive reals in
the normal range — the only values reached in the computations below —
with non-positive inputs collapsing to 0 (exact for the zero cases used;
subnormals and overflow are out of range here). -/

/-- Round-to-nearest, ties-to-even, to a 53-bit significand: scale into
`[2^52, 2^53)`, take the floor, round the fractional part (ties to the even
significand), and scale back. -/
noncomputable def roundDouble (x : ℝ) : ℝ :=
  if x ≤ 0 then 0
  else
    let e : ℤ := Int.log 2 x - 52
    let s : ℝ := x / 2 ^ e
    let m0 : ℤ := ⌊s⌋
    let m : ℤ :=
      if s - m0 < 1 / 2 then m0
      else if 1 / 2 < s - m0 then m0 + 1
      else if 2 ∣ m0 then m0 else m0 + 1
    (m : ℝ) * 2 ^ e

lemma roundDouble_of_nonpos {x : ℝ} (h : x ≤ 0) : roundDouble x = 0 := by
  unfold roundDouble
  rw [if_pos h]

lemma roundDouble_zero : roundDouble 0 = 0 := roundDouble_of_nonpos le_rfl

/-- Uniqueness of the binary logarithm from its bracketing powers. -/
lemma int_log_eq {x : ℝ} {k : ℤ} (hx : 0 < x)
    (h1 : (2 : ℝ) ^ k ≤ x) (h2 : x < (2 : ℝ) ^ (k + 1)) :
    Int.log 2 x = k := by
  have hb : 1 < (2 : ℕ) := by norm_num
  have h1' : ((2 : ℕ) : ℝ) ^ k ≤ x := by exact_mod_cast h1
  have h2' : x < ((2 : ℕ) : ℝ) ^ (k + 1) := by exact_mod_cast h2
  have hle : k ≤ Int.log 2 x := (Int.zpow_le_iff_le_log hb hx).mp h1'
  have hlt : Int.log 2 x < k + 1 := (Int.lt_zpow_iff_log_lt hb hx).mp h2'
  omega

/-- Evaluating the rounding when the fractional part is below one half. -/
lemma roundDouble_down {x : ℝ} {e m0 : ℤ} (hx : 0 < x)
    (hlog : Int.log 2 x = e + 52)
    (hm : ⌊x / (2 : ℝ) ^ e⌋ = m0)
    (hr : x / (2 : ℝ) ^ e - m0 < 1 / 2) :
    roundDouble x = (m0 : ℝ) * (2 : ℝ) ^ e := by
  unfold roundDouble
  rw [if_neg (not_le.mpr hx)]
  have he : Int.log 2 x - 52 = e := by omega
  rw [he]
  dsimp only
  rw [hm, if_pos hr]

/-- Evaluating the rounding when the fractional part exceeds one half. -/
lemma roundDouble_up {x : ℝ} {e m0 : ℤ} (hx : 0 < x)
    (hlog : Int.log 2 x = e + 52)
    (hm : ⌊x / (2 : ℝ) ^ e⌋ = m0)
    (hr : 1 / 2 < x / (2 : ℝ) ^ e - m0) :
    roundDouble x = ((m0 : ℝ) + 1) * (2 : ℝ) ^ e := by
  unfold roundDouble
  rw [if_neg (not_le.mpr hx)]
  have he : Int.log 2 x - 52 = e := by omega
  rw [he]
  dsimp only
  rw [hm, if_neg (by linarith), if_pos hr]
  push_cast
  ring

lemma two_zpow_52 : ((2 : ℝ) ^ (52 : ℤ)) = 4503599627370496 := by
  rw [show (52 : ℤ) = ((52 : ℕ) : ℤ) from rfl, zpow_natCast]
  norm_num

lemma two_zpow_51 : ((2 : ℝ) ^ (51 : ℤ)) = 2251799813685248 := by
  rw [show (51 : ℤ) = ((51 : ℕ) : ℤ) from rfl, zpow_natCast]
  norm_num

lemma two_zpow_53 : ((2 : ℝ) ^ (53 : ℤ)) = 9007199254740992 := by
  rw [show (53 : ℤ) = ((53 : ℕ) : ℤ) from rfl, zpow_natCast]
  norm_num

lemma div_zpow_neg (x : ℝ) (n : ℤ) : x / (2 : ℝ) ^ (-n) = x * (2 : ℝ) ^ n := by
  rw [zpow_neg, div_eq_mul_inv, inv_inv]

lemma roundDouble_one : roundDouble (1 : ℝ) = 1 := by
  have h1 : ((1 : ℝ) / (2 : ℝ) ^ (-52 : ℤ)) = ((4503599627370496 : ℤ) : ℝ) := by
    rw [zpow_neg]
    norm_num
  have hlog : Int.log 2 (1 : ℝ) = -52 + 52 := by
    have h0 : Int.log 2 (1 : ℝ) = 0 :=
      int_log_eq one_pos (by norm_num) (by norm_num)
    omega
  have hm : ⌊(1 : ℝ) / (2 : ℝ) ^ (-52 : ℤ)⌋ = 4503599627370496 := by
    rw [h1, Int.floor_intCast]
  have hr : (1 : ℝ) / (2 : ℝ) ^ (-52 : ℤ) -
      ((4503599627370496 : ℤ) : ℝ) < 1 / 2 := by
    rw [h1]
    norm_num
  rw [roundDouble_down one_pos hlog hm hr]
  rw [zpow_neg]
  norm_num

lemma roundDouble_two : roundDouble (2 : ℝ) = 2 := by
  have h1 : ((2 : ℝ) / (2 : ℝ) ^ (-51 : ℤ)) = ((4503599627370496 : ℤ) : ℝ) := by
    rw [zpow_neg]
    norm_num
  have hlog : Int.log 2 (2 : ℝ) = -51 + 52 := by
    have h0 : Int.log 2 (2 : ℝ) = 1 :=
      int_log_eq two_pos (by norm_num) (by norm_num)
    omega
  have hm : ⌊(2 : ℝ) / (2 : ℝ) ^ (-51 : ℤ)⌋ = 4503599627370496 := by
    rw [h1, Int.floor_intCast]
  have hr : (2 : ℝ) / (2 : ℝ) ^ (-51 : ℤ) -
      ((4503599627370496 : ℤ) : ℝ) < 1 / 2 := by
    rw [h1]
    norm_num
  rw [roundDouble_down two_pos hlog hm hr]
  rw [zpow_neg]
  norm_num

lemma sqrt_two_pos : (0 : ℝ) < Real.sqrt 2 := Real.sqrt_pos.mpr two_pos

/-- `√2 · 2^52 = √(2 · 2^104)`, as one radicand. -/
lemma sqrt2_scaled : Real.sqrt 2 / (2 : ℝ) ^ (-52 : ℤ) =
    Real.sqrt 40564819207303340847894502572032 := by
  rw [div_zpow_neg, two_zpow_52]
  rw [show (40564819207303340847894502572032 : ℝ) =
    2 * 4503599627370496 ^ 2 by norm_num]
  rw [Real.sqrt_mul (by norm_num) (4503599627370496 ^ 2 : ℝ)]
  rw [Real.sqrt_sq (by norm_num : (0 : ℝ) ≤ 4503599627370496)]

/-- `Math.sqrt(2)` in binary64: `6369051672525773 × 2⁻⁵²`
(= 1.4142135623730951…), rounded up since the fractional part of
`√2 · 2^52` exceeds one half. -/
lemma roundDouble_sqrt2 :
    roundDouble (Real.sqrt 2) = 6369051672525773 / 4503599627370496 := by
  have hlog : Int.log 2 (Real.sqrt 2) = 0 := by
    apply int_log_eq sqrt_two_pos
    · rw [zpow_zero]
      exact (Real.le_sqrt' one_pos).mpr (by norm_num)
    · rw [zero_add, zpow_one]
      exact (Real.sqrt_lt' two_pos).mpr (by norm_num)
  have hm : ⌊Real.sqrt 2 / (2 : ℝ) ^ (-52 : ℤ)⌋ = 6369051672525772 := by
    rw [sqrt2_scaled]
    apply Int.floor_eq_iff.mpr
    constructor
    · push_cast
      exact (Real.le_sqrt' (by norm_num)).mpr (by norm_num)
    · push_cast
      exact (Real.sqrt_lt' (by norm_num)).mpr (by norm_num)
  have hr : 1 / 2 < Real.sqrt 2 / (2 : ℝ) ^ (-52 : ℤ) -
      ((6369051672525772 : ℤ) : ℝ) := by
    rw [sqrt2_scaled]
    have : (6369051672525772 : ℝ) + 1 / 2 <
        Real.sqrt 40564819207303340847894502572032 :=
      (Real.lt_sqrt (by norm_num)).mpr (by norm_num)
    push_cast
    linarith
  rw [roundDouble_up sqrt_two_pos (by rw [hlog]; norm_num) hm hr]
  rw [zpow_neg, two_zpow_52]
  norm_num

/-- Squaring the binary64 `√2` in binary64 gives `2 + 2⁻⁵¹`
(= 2.0000000000000004), not 2: the exact square `m²/2^104` rounds up. -/
lemma roundDouble_sq_s :
    roundDouble ((6369051672525773 / 4503599627370496 : ℝ) *
      (6369051672525773 / 4503599627370496)) =
      4503599627370497 / 2251799813685248 := by
  set x : ℝ := (6369051672525773 / 4503599627370496 : ℝ) *
    (6369051672525773 / 4503599627370496) with hx
  have hxpos : (0 : ℝ) < x := by rw [hx]; norm_num
  have hlog : Int.log 2 x = 1 := by
    apply int_log_eq hxpos
    · rw [zpow_one, hx]; norm_num
    · rw [show (1 + 1 : ℤ) = ((2 : ℕ) : ℤ) from rfl, zpow_natCast, hx]
      norm_num
  have hscale : x / (2 : ℝ) ^ (-51 : ℤ) =
      40564819207303346393761349247529 / 9007199254740992 := by
    rw [div_zpow_neg, two_zpow_51, hx]
    norm_num
  have hm : ⌊x / (2 : ℝ) ^ (-51 : ℤ)⌋ = 4503599627370496 := by
    rw [hscale]
    apply Int.floor_eq_iff.mpr
    constructor
    · push_cast; norm_num
    · push_cast; norm_num
  have hr : 1 / 2 < x / (2 : ℝ) ^ (-51 : ℤ) - ((4503599627370496 : ℤ) : ℝ) := by
    rw [hscale]
    push_cast
    norm_num
  rw [roundDouble_up hxpos (by rw [hlog]; norm_num) hm hr]
  rw [zpow_neg, two_zpow_51]
  norm_num

/-- The final division in binary64: `2 / 2.0000000000000004` rounds to
`1 − 2⁻⁵²` (= 0.9999999999999998). -/
lemma roundDouble_quot :
    roundDouble ((2 : ℝ) / (4503599627370497 / 2251799813685248)) =
      4503599627370495 / 4503599627370496 := by
  set x : ℝ := (2 : ℝ) / (4503599627370497 / 2251799813685248) with hx
  have hxval : x = 4503599627370496 / 4503599627370497 := by
    rw [hx]; norm_num
  have hxpos : (0 : ℝ) < x := by rw [hxval]; norm_num
  have hlog : Int.log 2 x = -1 := by
    apply int_log_eq hxpos
    · rw [show ((-1 : ℤ)) = -((1 : ℕ) : ℤ) from rfl, zpow_neg, zpow_natCast,
        hxval]
      norm_num
    · rw [show ((-1 : ℤ) + 1) = 0 from rfl, zpow_zero, hxval]
      norm_num
  have hscale : x / (2 : ℝ) ^ (-53 : ℤ) =
      40564819207303340847894502572032 / 4503599627370497 := by
    rw [div_zpow_neg, two_zpow_53, hxval]
    norm_num
  have hm : ⌊x / (2 : ℝ) ^ (-53 : ℤ)⌋ = 9007199254740990 := by
    rw [hscale]
    apply Int.floor_eq_iff.mpr
    constructor
    · push_cast; norm_num
    · push_cast; norm_num
  have hr : x / (2 : ℝ) ^ (-53 : ℤ) - ((9007199254740990 : ℤ) : ℝ) < 1 / 2 := by
    rw [hscale]
    push_cast
    norm_num
  rw [roundDouble_down hxpos (by rw [hlog]; norm_num) hm hr]
  rw [zpow_neg, two_zpow_53]
  norm_num

/-- Binary64 addition (JavaScript `+`). -/
noncomputable def fadd (x y : ℝ) : ℝ := roundDouble (x + y)

/-- Binary64 multiplication (JavaScript `*`). -/
noncomputable def fmul (x y : ℝ) : ℝ := roundDouble (x * y)

/-- Binary64 division (JavaScript `/`). -/
noncomputable def fdiv (x y : ℝ) : ℝ := roundDouble (x / y)

/-- Binary64 square root (`Math.sqrt`, correctly rounded). -/
noncomputable def fsqrt (x : ℝ) : ℝ := roundDouble (Real.sqrt x)

/-- The running sum `acc += x` of a JavaScript loop, in binary64. -/
noncomputable def fpSum (l : List ℝ) : ℝ := l.foldl fadd 0

/-- The `magA += valA * valA` accumulation of `_cosineSimilarity` in
binary64 (term-frequency counts are small integers, exact in binary64). -/
noncomputable def fpMagSq (v : TFVec) : ℝ :=
  fpSum (v.map (fun e => fmul ((e.2 : ℚ) : ℝ) ((e.2 : ℚ) : ℝ)))

/-- The `dotProduct += valA * valB` accumulation of `_cosineSimilarity` in
binary64. -/
noncomputable def fpDot (A B : TFVec) : ℝ :=
  fpSum (A.map (fun e => fmul ((e.2 : ℚ) : ℝ) ((lookupVal B e.1 : ℚ) : ℝ)))

/-- `AIKernel._cosineSimilarity` in binary64 arithmetic: the zero-magnitude
guard, then `fdiv dot (fmul (fsqrt magA) (fsqrt magB))`. -/
noncomputable def fpCosine (A B : TFVec) : ℝ :=
  if fpMagSq A = 0 ∨ fpMagSq B = 0 then 0
  else fdiv (fpDot A B) (fmul (fsqrt (fpMagSq A)) (fsqrt (fpMagSq B)))

/-- The identical two-token unit-count vector `{x: 1, y: 1}`. -/
def vXY : TFVec := [("x", 1), ("y", 1)]

lemma fmul_one_one : fmul (1 : ℝ) 1 = 1 := by
  unfold fmul
  rw [mul_one, roundDouble_one]

lemma fadd_zero_one : fadd (0 : ℝ) 1 = 1 := by
  unfold fadd
  rw [zero_add, roundDouble_one]

lemma fadd_one_one : fadd (1 : ℝ) 1 = 2 := by
  unfold fadd
  rw [show (1 : ℝ) + 1 = 2 by norm_num, roundDouble_two]

/-- The squared magnitude of `{x:1, y:1}` is exactly 2 even in binary64. -/
lemma fpMagSq_vXY : fpMagSq vXY = 2 := by
  show fpSum [fmul ((1 : ℚ) : ℝ) ((1 : ℚ) : ℝ),
    fmul ((1 : ℚ) : ℝ) ((1 : ℚ) : ℝ)] = 2
  rw [show ((1 : ℚ) : ℝ) = 1 by norm_num]
  show fadd (fadd 0 (fmul 1 1)) (fmul 1 1) = 2
  rw [fmul_one_one, fadd_zero_one, fadd_one_one]

/-- The dot product of `{x:1, y:1}` with itself is exactly 2 in binary64. -/
lemma fpDot_vXY : fpDot vXY vXY = 2 := by
  have hx : lookupVal vXY "x" = 1 := rfl
  have hy : lookupVal vXY "y" = 1 := rfl
  show fpSum [fmul ((1 : ℚ) : ℝ) ((lookupVal vXY "x" : ℚ) : ℝ),
    fmul ((1 : ℚ) : ℝ) ((lookupVal vXY "y" : ℚ) : ℝ)] = 2
  rw [hx, hy]
  rw [show ((1 : ℚ) : ℝ) = 1 by norm_num]
  show fadd (fadd 0 (fmul 1 1)) (fmul 1 1) = 2
  rw [fmul_one_one, fadd_zero_one, fadd_one_one]

/-- C9 counterexample: in the program's IEEE-754 binary64 arithmetic, the
cosine similarity of the identical non-zero vector `{x:1, y:1}` with itself
is `1 − 2⁻⁵²` (= 0.9999999999999998), **not** exactly 1:
`Math.sqrt(2) * Math.sqrt(2) = 2.0000000000000004` and
`2 / 2.0000000000000004` rounds below 1. -/
theorem C9_counterexample :
    fpCosine vXY vXY = 4503599627370495 / 4503599627370496 ∧
    (4503599627370495 / 4503599627370496 : ℝ) ≠ 1 := by
  constructor
  · unfold fpCosine
    rw [fpMagSq_vXY, fpDot_vXY]
    rw [if_neg (by norm_num)]
    unfold fsqrt
    rw [roundDouble_sqrt2]
    unfold fmul
    rw [roundDouble_sq_s]
    unfold fdiv
    rw [roundDouble_quot]
  · norm_num

lemma fmul_zero_right (x : ℝ) : fmul x 0 = 0 := by
  unfold fmul
  rw [mul_zero, roundDouble_zero]

lemma fdiv_zero_left (y : ℝ) : fdiv 0 y = 0 := by
  unfold fdiv
  rw [zero_div, roundDouble_zero]

lemma fadd_zero_zero : fadd (0 : ℝ) 0 = 0 := by
  unfold fadd
  rw [add_zero, roundDouble_zero]

/-- Accumulating zeros in binary64 is exact. -/
lemma fpSum_zeros : ∀ (l : List ℝ), (∀ y ∈ l, y = 0) → fpSum l = 0 := by
  intro l
  induction l with
  | nil => intro _; rfl
  | cons x xs ih =>
    intro h
    have hx : x = 0 := h x (List.mem_cons_self x xs)
    show (x :: xs).foldl fadd 0 = 0
    simp only [List.foldl_cons, hx, fadd_zero_zero]
    exact ih (fun y hy => h y (List.mem_cons_of_mem x hy))

/-- C9 (amended): under exact real arithmetic `_cosineSimilarity` returns
exactly 1 on an identical duplicate-free non-zero vector, but in the
program's IEEE-754 binary64 arithmetic the result for identical vectors
need not be exactly 1 (see `C9_counterexample`); the other two parts hold
exactly even in binary64: vectors sharing no tokens give exactly 0 (a sum
of exact zero products), and a zero squared magnitude on either side gives
0 with no division performed. -/
theorem C9_cosine_similarity_amended (A B : TFVec) :
    ((A.map Prod.fst).Nodup → magSq A ≠ 0 → cosineSimilarity A A = 1) ∧
    ((∀ k ∈ A.map Prod.fst, k ∉ B.map Prod.fst) → fpCosine A B = 0) ∧
    (fpMagSq A = 0 ∨ fpMagSq B = 0 → fpCosine A B = 0) := by
  refine ⟨?_, ?_, ?_⟩
  · intro hnd hnz
    unfold cosineSimilarity
    rw [if_neg (by tauto)]
    rw [dot_self_eq_magSq A hnd]
    rw [Real.mul_self_sqrt (by exact_mod_cast magSq_nonneg A)]
    exact div_self (by exact_mod_cast hnz)
  · intro hdisj
    have hdot : fpDot A B = 0 := by
      unfold fpDot
      apply fpSum_zeros
      intro y hy
      obtain ⟨e, he, hey⟩ := List.mem_map.mp hy
      rw [← hey]
      have hnone : List.lookup e.1 B = none :=
        lookup_eq_none_of_not_mem e.1 B
          (hdisj e.1 (List.mem_map_of_mem Prod.fst he))
      have hlv : lookupVal B e.1 = 0 := by
        unfold lookupVal
        rw [hnone]
        rfl
      rw [hlv]
      rw [show ((0 : ℚ) : ℝ) = 0 by norm_num]
      exact fmul_zero_right _
    unfold fpCosine
    by_cases hz : fpMagSq A = 0 ∨ fpMagSq B = 0
    · rw [if_pos hz]
    · rw [if_neg hz, hdot]
      exact fdiv_zero_left _
  · intro hz
    unfold fpCosine
    rw [if_pos hz]

/-- Witness for the amended C9 on concrete vectors. -/
theorem C9_witness :
    cosineSimilarity [("foo", 2)] [("foo", 2)] = 1 ∧
    fpCosine [("foo", 2)] [("bar", 3)] = 0 ∧
    fpCosine [] [("bar", 3)] = 0 :=
  ⟨(C9_cosine_similarity_amended [("foo", 2)] [("foo", 2)]).1 (by decide)
      (by norm_num [magSq]),
   (C9_cosine_similarity_amended [("foo", 2)] [("bar", 3)]).2.1 (by decide),
   (C9_cosine_similarity_amended [] [("bar", 3)]).2.2 (Or.inl rfl)⟩

/-! ### The learning pass -/

/-- `CONFIG.MAX_FILES` in `AIKernel`. -/
def MAX_FILES : Nat := 500

/-- `CONFIG.MIN_TOKEN_LENGTH` in `AIKernel`. -/
def MIN_TOKEN_LENGTH : Nat := 2

/-- The `STOP_WORDS` set of `AIKernel`. -/
def STOP_WORDS : List String :=
  ["const", "let", "var", "import", "from", "require",
   "class", "function", "return", "if", "else", "this",
   "new", "export", "default", "async", "await", "for",
   "while", "do", "switch", "case", "break", "continue",
   "try", "catch", "finally", "throw", "null", "undefined",
   "true", "false"]

/-- A word character of the regex class `[a-zA-Z0-9_]` (`Char.isAlphanum`
covers exactly the ASCII letters and digits). -/
def isWordChar (c : Char) : Bool := c.isAlphanum || c = '_'

/-- `String.prototype.split` on a single-character class: split at every
character satisfying `p`, keeping empty pieces between consecutive
separators and at the ends. -/
def splitCharsAux (p : Char → Bool) : List Char → List Char → List String
  | [], cur => [⟨cur.reverse⟩]
  | c :: rest, cur =>
    if p c then ⟨cur.reverse⟩ :: splitCharsAux p rest []
    else splitCharsAux p rest (c :: cur)

/-- `content.split(/[^a-zA-Z0-9_]/)`-style splitting. -/
def strSplit (p : Char → Bool) (s : String) : List String :=
  splitCharsAux p s.data []

/-- `String.prototype.toLowerCase` (ASCII, which covers the stop words). -/
def strToLower (s : String) : String := ⟨s.data.map Char.toLower⟩

/-- `AIKernel._tokenize`: split on non-identifier characters, keep tokens
longer than `MIN_TOKEN_LENGTH` that are not stop words
(case-insensitively). -/
def tokenize (content : String) : List String :=
  (strSplit (fun c => !(isWordChar c)) content).filter
    (fun token => decide (token.length > MIN_TOKEN_LENGTH) &&
      !(STOP_WORDS.contains (strToLower token)))

/-- `AIKernel._countImports`: the number of matches of
`/\b(import|require)\b/g`, i.e. the number of maximal word-character runs
equal to `import` or `require` (a word boundary holds exactly at the edges
of such runs). -/
def countImports (content : String) : Nat :=
  ((strSplit (fun c => !(isWordChar c)) content).filter
    (fun t => t = "import" || t = "require")).length

/-- JavaScript `Map.prototype.set` on an entry list: replace in place when
the key exists (a `Map` keeps the original insertion position), otherwise
append. -/
def mapSet {α : Type} (v : List (String × α)) (k : String) (x : α) :
    List (String × α) :=
  if (v.lookup k).isSome then
    v.map (fun e => if e.1 = k then (k, x) else e)
  else
    v ++ [(k, x)]

/-- `AIKernel._vectorize`: term-frequency map of a token list. -/
def vectorize (tokens : List String) : TFVec :=
  tokens.foldl (fun vector token =>
    mapSet vector token (lookupVal vector token + 1)) []

/-- The `statsModel` record `{mean, stdDev}`. -/
structure StatsModel where
  mean : ℚ
  stdDev : ℝ

/-- `AIKernel._computeStats`: mean and standard deviation of a list, with
`{mean: 0, stdDev: 1}` for the empty list and `stdDev || 1` replacing a
zero standard deviation by 1. -/
noncomputable def computeStats (arr : List ℚ) : StatsModel :=
  if arr.length = 0 then ⟨0, 1⟩
  else
    let mean := arr.sum / (arr.length : ℚ)
    let avgSquareDiff := ((arr.map (fun x => (x - mean) ^ 2)).sum) /
      (arr.length : ℚ)
    let stdDev := Real.sqrt (avgSquareDiff : ℝ)
    ⟨mean, if stdDev = 0 then 1 else stdDev⟩

/-- The mutable state of an `AIKernel` instance (`projectStats.loc` is
initialised but never written or read and is omitted). -/
structure AIKernel where
  vectors : List (String × TFVec)
  importCounts : List ℚ
  statsModel : Option StatsModel
  isLearning : Bool

/-- `AIKernel._processFile`.  `env` models
`fs.existsSync` + `fs.readFileSync` (with the surrounding `try`/`catch`):
`none` means the file is missing or unreadable and is skipped. -/
def processFile (env : String → Option String) (k : AIKernel)
    (file : String) : AIKernel :=
  match env file with
  | none => k
  | some content =>
    let tokens := tokenize content
    let vector := vectorize tokens
    { k with
      vectors := mapSet k.vectors file vector
      importCounts := k.importCounts ++ [(countImports content : ℚ)] }

/-- `AIKernel.learn`.  The second component is the JavaScript return value:
the function returns `undefined` (`none`) both when declined by the
`isLearning` guard and on completion. -/
noncomputable def learn (env : String → Option String) (k : AIKernel)
    (filePaths : List String) : AIKernel × Option String :=
  if k.isLearning then (k, none)
  else
    let targetFiles := filePaths.take MAX_FILES
    let k1 := { k with isLearning := true, importCounts := [], vectors := [] }
    let k2 := targetFiles.foldl (processFile env) k1
    ({ k2 with
        statsModel := some (computeStats k2.importCounts)
        isLearning := false }, none)

/-- The computed standard deviation is strictly positive: it is the square
root of a non-negative average, replaced by 1 exactly when that root is
zero. -/
lemma computeStats_stdDev_pos (arr : List ℚ) :
    0 < (computeStats arr).stdDev := by
  unfold computeStats
  by_cases hz : arr.length = 0
  · rw [if_pos hz]
    norm_num
  · rw [if_neg hz]
    simp only
    set v : ℚ := ((arr.map
        (fun x => (x - arr.sum / (arr.length : ℚ)) ^ 2)).sum) /
      (arr.length : ℚ) with hv
    have hvnn : (0 : ℚ) ≤ v := by
      apply div_nonneg
      · apply List.sum_nonneg
        intro x hx
        obtain ⟨y, _, hy⟩ := List.mem_map.mp hx
        rw [← hy]
        positivity
      · positivity
    by_cases hs : Real.sqrt (v : ℝ) = 0
    · rw [if_pos hs]
      norm_num
    · rw [if_neg hs]
      rcases lt_or_eq_of_le (Real.sqrt_nonneg (v : ℝ)) with h | h
      · exact h
      · exact absurd h.symm hs

/-- A fresh kernel: no vectors, no counts, no model, not learning. -/
def kFresh : AIKernel := ⟨[], [], none, false⟩

/-- File contents for the C5 counterexample: `f1` has no import/require
occurrence, `f2` has exactly one. -/
def env5 : String → Option String := fun f =>
  if f = "f1" then some "x = 1"
  else if f = "f2" then some "import a"
  else none

/-- C5 counterexample: a learning pass over two files with import counts
`[0, 1]` produces a standard deviation of `1/2 < 1` (`stdDev || 1` only
replaces an exactly-zero standard deviation), refuting the claimed floor
of 1. -/
theorem C5_counterexample :
    ∃ m, (learn env5 kFresh ["f1", "f2"]).1.statsModel = some m ∧
      m.stdDev < 1 := by
  have h1 : (learn env5 kFresh ["f1", "f2"]).1.statsModel =
      some (computeStats [((0 : ℕ) : ℚ), ((1 : ℕ) : ℚ)]) := rfl
  refine ⟨computeStats [((0 : ℕ) : ℚ), ((1 : ℕ) : ℚ)], h1, ?_⟩
  unfold computeStats
  rw [if_neg (by norm_num)]
  simp only
  have hv : (([((0 : ℕ) : ℚ), ((1 : ℕ) : ℚ)].map
      (fun x => (x - [((0 : ℕ) : ℚ), ((1 : ℕ) : ℚ)].sum /
        (([((0 : ℕ) : ℚ), ((1 : ℕ) : ℚ)].length : ℕ) : ℚ)) ^ 2)).sum /
      (([((0 : ℕ) : ℚ), ((1 : ℕ) : ℚ)].length : ℕ) : ℚ)) = 1 / 4 := by
    norm_num
  rw [hv]
  have hs : Real.sqrt ((1 / 4 : ℚ) : ℝ) = 1 / 2 := by
    rw [show ((1 / 4 : ℚ) : ℝ) = (1 / 2 : ℝ) ^ 2 by norm_num]
    rw [Real.sqrt_sq (by norm_num : (0 : ℝ) ≤ 1 / 2)]
  rw [hs]
  rw [if_neg (by norm_num)]
  norm_num

/-- C5 (amended): every completed learning pass (one not declined by the
`isLearning` guard) installs a statistics model whose standard deviation is
strictly positive — it is floored to 1 only when the computed standard
deviation is exactly zero, not to a minimum of 1 in general. -/
theorem C5_stdDev_positive_amended (env : String → Option String)
    (k : AIKernel) (filePaths : List String) (h : k.isLearning = false) :
    ∃ m, (learn env k filePaths).1.statsModel = some m ∧ 0 < m.stdDev := by
  refine ⟨computeStats ((filePaths.take MAX_FILES).foldl (processFile env)
    { k with isLearning := true, importCounts := [],
             vectors := [] }).importCounts,
    ?_, computeStats_stdDev_pos _⟩
  simp only [learn, h, Bool.false_eq_true, if_false]

/-- Witness for the amended C5 on a concrete idle kernel. -/
theorem C5_witness :
    ∃ m, (learn (fun _ => none) kFresh []).1.statsModel = some m ∧
      0 < m.stdDev :=
  C5_stdDev_positive_amended (fun _ => none) kFresh [] rfl

/-! ## DeepCycleDetector: graph construction with mtime caching -/

/-- The file-system snapshot consulted by `_processFileForGraph`:
`fsOk` models `fs.existsSync` together with a successful `statSync`/read
(the `try`/`catch` makes any failure equivalent to skipping the file);
`size` and `mtime` model `stats.size` and `stats.mtimeMs`;
`resolvedImports` models the composite
`parser.parse(readFileSync(f), languageId)` filtered to paths starting
with `.` and resolved by `_resolveImportPath` — a pure function of the
snapshot. -/
structure FsEnv where
  fsOk : String → Bool
  size : String → Nat
  mtime : String → ℚ
  resolvedImports : String → List String

/-- The mutable state of a `DeepCycleDetector`: the dependency graph and
timestamp maps (modelled as functions, `none` = key absent) and the
`isBuilding` single-flight flag. -/
structure DetectorState where
  dependencyGraph : String → Option (List String)
  fileTimestamps : String → Option ℚ
  isBuilding : Bool

/-- `Map.prototype.set` on a functional map. -/
def fnUpdate {α : Type} (m : String → Option α) (k : String) (v : α) :
    String → Option α :=
  fun x => if x = k then some v else m x

/-- `cachedTime && cachedTime === stats.mtimeMs`: the stored timestamp is
present, truthy (non-zero) and equal to the current one. -/
def cacheHit (env : FsEnv) (st : DetectorState) (filePath : String) : Bool :=
  match st.fileTimestamps filePath with
  | some t => decide (t ≠ 0) && decide (t = env.mtime filePath)
  | none => false

/-- `DeepCycleDetector._processFileForGraph`: skip missing files, oversized
files and cache hits; otherwise store the file's resolved imports and its
modification time. -/
def processFileForGraph (env : FsEnv) (st : DetectorState)
    (filePath : String) : DetectorState :=
  if env.fsOk filePath = false then st
  else if env.size filePath > MAX_FILE_SIZE then st
  else if cacheHit env st filePath then st
  else
    { st with
      dependencyGraph := fnUpdate st.dependencyGraph filePath
        (env.resolvedImports filePath)
      fileTimestamps := fnUpdate st.fileTimestamps filePath
        (env.mtime filePath) }

/-- `DeepCycleDetector.buildGraph`.  The second component is the JavaScript
return value: `undefined` (`none`) both when declined by the `isBuilding`
guard and on completion.  `isBuilding` is set for the duration of the pass
and cleared in the `finally` block. -/
def buildGraph (env : FsEnv) (st : DetectorState) (filePaths : List String) :
    DetectorState × Option String :=
  if st.isBuilding then (st, none)
  else
    let limitedFiles := filePaths.take MAX_FILES_PER_CHECK
    let st1 := { st with isBuilding := true }
    let st2 := limitedFiles.foldl (processFileForGraph env) st1
    ({ st2 with isBuilding := false }, none)

/-- Re-setting a key to the value it already has is the identity. -/
lemma fnUpdate_same {α : Type} (m : String → Option α) (k : String) (v : α)
    (h : m k = some v) : fnUpdate m k v = m := by
  funext x
  unfold fnUpdate
  by_cases hx : x = k
  · subst hx; simp [h]
  · simp [hx]

/-- Updates do not touch other keys. -/
lemma fnUpdate_ne {α : Type} (m : String → Option α) (k : String) (v : α)
    (x : String) (h : x ≠ k) : fnUpdate m k v x = m x := by
  simp [fnUpdate, h]

/-- An update is visible at its own key. -/
lemma fnUpdate_self {α : Type} (m : String → Option α) (k : String) (v : α) :
    fnUpdate m k v k = some v := by
  simp [fnUpdate]

/-- Per-file processing never touches the `isBuilding` flag. -/
lemma processFile_isBuilding (env : FsEnv) (st : DetectorState) (f : String) :
    (processFileForGraph env st f).isBuilding = st.isBuilding := by
  unfold processFileForGraph
  split
  · rfl
  · split
    · rfl
    · split <;> rfl

/-- Processing one file leaves every other file's graph and timestamp
entries unchanged. -/
lemma processFile_entries_ne (env : FsEnv) (st : DetectorState) (f g : String)
    (h : f ≠ g) :
    (processFileForGraph env st g).fileTimestamps f = st.fileTimestamps f ∧
    (processFileForGraph env st g).dependencyGraph f = st.dependencyGraph f := by
  unfold processFileForGraph
  split
  · exact ⟨rfl, rfl⟩
  · split
    · exact ⟨rfl, rfl⟩
    · split
      · exact ⟨rfl, rfl⟩
      · exact ⟨fnUpdate_ne _ _ _ _ h, fnUpdate_ne _ _ _ _ h⟩

/-- A file is stable in a state when reprocessing it leaves the state
unchanged. -/
def Stable (env : FsEnv) (f : String) (st : DetectorState) : Prop :=
  processFileForGraph env st f = st

/-- The per-file conditions under which reprocessing is the identity:
the file is skipped (missing, oversized, or a cache hit) or its stored
entries already equal what reprocessing would store. -/
def StableCond (env : FsEnv) (f : String) (st : DetectorState) : Prop :=
  env.fsOk f = false ∨ env.size f > MAX_FILE_SIZE ∨
    cacheHit env st f = true ∨
    (st.fileTimestamps f = some (env.mtime f) ∧
      st.dependencyGraph f = some (env.resolvedImports f))

lemma stable_of_cond (env : FsEnv) (f : String) (st : DetectorState)
    (h : StableCond env f st) : Stable env f st := by
  unfold Stable processFileForGraph
  by_cases h1 : env.fsOk f = false
  · rw [if_pos h1]
  · rw [if_neg h1]
    by_cases h2 : env.size f > MAX_FILE_SIZE
    · rw [if_pos h2]
    · rw [if_neg h2]
      by_cases h3 : cacheHit env st f
      · rw [if_pos h3]
      · rw [if_neg h3]
        rcases h with h | h | h | ⟨ha, hb⟩
        · exact absurd h h1
        · exact absurd h h2
        · exact absurd h h3
        · rcases st with ⟨dep, ts, b⟩
          simp only [DetectorState.mk.injEq]
          exact ⟨fnUpdate_same _ _ _ hb, fnUpdate_same _ _ _ ha, trivial⟩

lemma cond_of_stable (env : FsEnv) (f : String) (st : DetectorState)
    (h : Stable env f st) : StableCond env f st := by
  unfold Stable processFileForGraph at h
  by_cases h1 : env.fsOk f = false
  · exact Or.inl h1
  · rw [if_neg h1] at h
    by_cases h2 : env.size f > MAX_FILE_SIZE
    · exact Or.inr (Or.inl h2)
    · rw [if_neg h2] at h
      by_cases h3 : cacheHit env st f
      · exact Or.inr (Or.inr (Or.inl h3))
      · rw [if_neg h3] at h
        refine Or.inr (Or.inr (Or.inr ⟨?_, ?_⟩))
        · have := congrArg (fun s => s.fileTimestamps f) h
          simp only at this
          rw [← this, fnUpdate_self]
        · have := congrArg (fun s => s.dependencyGraph f) h
          simp only at this
          rw [← this, fnUpdate_self]

/-- After a file has been processed once it is stable: reprocessing it is
the identity (the cache hit when its timestamp is truthy, or re-storing the
identical entries when the timestamp is zero). -/
lemma stable_after_process (env : FsEnv) (f : String) (st : DetectorState) :
    Stable env f (processFileForGraph env st f) := by
  by_cases h1 : env.fsOk f = false
  · have heq : processFileForGraph env st f = st := by
      unfold processFileForGraph; rw [if_pos h1]
    rw [heq]
    exact stable_of_cond env f st (Or.inl h1)
  · by_cases h2 : env.size f > MAX_FILE_SIZE
    · have heq : processFileForGraph env st f = st := by
        unfold processFileForGraph; rw [if_neg h1, if_pos h2]
      rw [heq]
      exact stable_of_cond env f st (Or.inr (Or.inl h2))
    · by_cases h3 : cacheHit env st f
      · have heq : processFileForGraph env st f = st := by
          unfold processFileForGraph; rw [if_neg h1, if_neg h2, if_pos h3]
        rw [heq]
        exact stable_of_cond env f st (Or.inr (Or.inr (Or.inl h3)))
      · have hp : processFileForGraph env st f =
            { st with
              dependencyGraph := fnUpdate st.dependencyGraph f
                (env.resolvedImports f)
              fileTimestamps := fnUpdate st.fileTimestamps f
                (env.mtime f) } := by
          unfold processFileForGraph; rw [if_neg h1, if_neg h2, if_neg h3]
        rw [hp]
        apply stable_of_cond
        exact Or.inr (Or.inr (Or.inr ⟨fnUpdate_self _ _ _, fnUpdate_self _ _ _⟩))

/-- Stability of a file survives the processing of any file (the same file
re-establishes it, a different file does not touch its entries). -/
lemma stable_preserved (env : FsEnv) (f g : String) (st : DetectorState)
    (h : Stable env f st) : Stable env f (processFileForGraph env st g) := by
  by_cases hfg : f = g
  · subst hfg
    exact stable_after_process env f st
  · obtain ⟨hts, hdep⟩ := processFile_entries_ne env st f g hfg
    apply stable_of_cond
    rcases cond_of_stable env f st h with h | h | h | ⟨ha, hb⟩
    · exact Or.inl h
    · exact Or.inr (Or.inl h)
    · refine Or.inr (Or.inr (Or.inl ?_))
      unfold cacheHit at h ⊢
      rw [hts]
      exact h
    · refine Or.inr (Or.inr (Or.inr ⟨?_, ?_⟩))
      · rw [hts]; exact ha
      · rw [hdep]; exact hb

lemma stable_foldl (env : FsEnv) (f : String) :
    ∀ (l : List String) (st : DetectorState), Stable env f st →
      Stable env f (l.foldl (processFileForGraph env) st) := by
  intro l
  induction l with
  | nil => intro st h; exact h
  | cons x xs ih =>
    intro st h
    exact ih _ (stable_preserved env f x st h)

/-- Every file of a processed batch is stable in the resulting state. -/
lemma all_stable_after_foldl (env : FsEnv) :
    ∀ (l : List String) (st : DetectorState) (f : String), f ∈ l →
      Stable env f (l.foldl (processFileForGraph env) st) := by
  intro l
  induction l with
  | nil => intro st f h; cases h
  | cons x xs ih =>
    intro st f h
    rcases List.mem_cons.mp h with h | h
    · subst h
      exact stable_foldl env f xs _ (stable_after_process env f st)
    · exact ih _ f h

/-- Processing a batch of files that are all stable is the identity. -/
lemma foldl_id_of_stable (env : FsEnv) :
    ∀ (l : List String) (st : DetectorState),
      (∀ f ∈ l, Stable env f st) →
      l.foldl (processFileForGraph env) st = st := by
  intro l
  induction l with
  | nil => intro st _; rfl
  | cons x xs ih =>
    intro st h
    have hx : processFileForGraph env st x = st := h x (List.mem_cons_self x xs)
    simp only [List.foldl_cons, hx]
    exact ih st (fun f hf => h f (List.mem_cons_of_mem x hf))

lemma foldl_isBuilding (env : FsEnv) :
    ∀ (l : List String) (st : DetectorState),
      (l.foldl (processFileForGraph env) st).isBuilding = st.isBuilding := by
  intro l
  induction l with
  | nil => intro st; rfl
  | cons x xs ih =>
    intro st
    simp only [List.foldl_cons, ih, processFile_isBuilding]

/-- C7: re-running `buildGraph` on the same file list against the same
file-system snapshot reproduces the state exactly — per-file entries whose
stored modification time matches are skipped by the cache, and entries with
an untruthy (zero) timestamp are recomputed to identical values — so
`buildGraph` is idempotent on an unchanged file set. -/
theorem C7_buildGraph_idempotent (env : FsEnv) (st : DetectorState)
    (filePaths : List String) :
    buildGraph env (buildGraph env st filePaths).1 filePaths =
      buildGraph env st filePaths := by
  by_cases hb : st.isBuilding
  · simp [buildGraph, hb]
  · have hb' : st.isBuilding = false := by simpa using hb
    have h1 : buildGraph env st filePaths =
        ({ (filePaths.take MAX_FILES_PER_CHECK).foldl (processFileForGraph env)
            { st with isBuilding := true } with isBuilding := false }, none) := by
      unfold buildGraph
      rw [if_neg (by simp [hb'])]
    set st2 := (filePaths.take MAX_FILES_PER_CHECK).foldl
      (processFileForGraph env) { st with isBuilding := true } with hst2
    have h2b : st2.isBuilding = true := by
      rw [hst2, foldl_isBuilding]
    rw [h1]
    have h4 : buildGraph env { st2 with isBuilding := false } filePaths =
        ({ (filePaths.take MAX_FILES_PER_CHECK).foldl (processFileForGraph env)
            { st2 with isBuilding := true } with isBuilding := false }, none) := by
      unfold buildGraph
      rw [if_neg (by simp)]
    rw [h4]
    have h5 : ({ st2 with isBuilding := true } : DetectorState) = st2 := by
      rcases hs : st2 with ⟨d, t, b⟩
      rw [hs] at h2b
      simp only at h2b
      rw [h2b]
    rw [h5]
    have h6 : (filePaths.take MAX_FILES_PER_CHECK).foldl
        (processFileForGraph env) st2 = st2 := by
      apply foldl_id_of_stable
      intro f hf
      rw [hst2]
      exact all_stable_after_foldl env _ _ f hf
    rw [h6]

/-! ## Single-flight guards (C8) -/

/-- A kernel whose learning pass is in progress. -/
def kBusy : AIKernel := ⟨[], [], none, true⟩

/-- A detector whose graph build is in progress. -/
def stBusy : DetectorState := ⟨fun _ => none, fun _ => none, true⟩

/-- An empty file-system snapshot for the detector. -/
def fsEnvEmpty : FsEnv := ⟨fun _ => false, fun _ => 0, fun _ => 0, fun _ => []⟩

/-- C8 counterexample: a `learn`/`buildGraph` call declined by the
in-progress guard returns `undefined` (`none`) — exactly what a completed
call returns (shown on an idle kernel) — so no explicit
"declined: already running" signal is produced to the caller. -/
theorem C8_counterexample :
    (learn (fun _ => none) kBusy ["f"]).2 = none ∧
    (buildGraph fsEnvEmpty stBusy ["f"]).2 = none ∧
    (learn (fun _ => none) kFresh ["f"]).2 = none ∧
    kBusy.isLearning = true ∧ stBusy.isBuilding = true ∧
    kFresh.isLearning = false :=
  ⟨rfl, rfl, rfl, rfl, rfl, rfl⟩

/-- C8 (amended): a `learn` or `buildGraph` call arriving while a pass is
already in progress leaves the entire kernel/detector state unchanged and
returns immediately; its return value is `undefined`, the same as a
completed call's — there is no distinct "declined" signal. -/
theorem C8_single_flight_amended (env : String → Option String)
    (fsEnv : FsEnv) (k : AIKernel) (st : DetectorState)
    (fps fps' : List String) :
    (k.isLearning = true → learn env k fps = (k, none)) ∧
    (st.isBuilding = true → buildGraph fsEnv st fps' = (st, none)) := by
  constructor
  · intro h
    simp [learn, h]
  · intro h
    simp [buildGraph, h]

/-- Witness for the amended C8 on concrete busy states. -/
theorem C8_witness :
    learn (fun _ => none) kBusy ["f"] = (kBusy, none) ∧
    buildGraph fsEnvEmpty stBusy ["f"] = (stBusy, none) :=
  ⟨(C8_single_flight_amended (fun _ => none) fsEnvEmpty kBusy stBusy
      ["f"] ["f"]).1 rfl,
   (C8_single_flight_amended (fun _ => none) fsEnvEmpty kBusy stBusy
      ["f"] ["f"]).2 rfl⟩

end ArchitSearch
